import Mathlib

/-!
Shallow embedding of `src/monitor.py` (pg3io/site-monitor), a website
monitoring tool: per-endpoint bounded latency history, probe classification,
sparkline rendering, and the timing of the polling loop.

Latencies (Python floats, milliseconds) are modelled as rationals; machine
wall-clock times likewise.  Python `deque(maxlen=HISTORY_SIZE)` is modelled
as a list with explicit single-oldest eviction on append at capacity.
-/

/-- `HISTORY_SIZE = 50` (monitor.py line 24). -/
def HISTORY_SIZE : Nat := 50

/-- `TIMEOUT = 5` (monitor.py line 20), seconds. -/
def TIMEOUT : ℚ := 5

/-- `DEFAULT_INTERVAL = 10` (monitor.py line 21), seconds. -/
def DEFAULT_INTERVAL : ℚ := 10

/-- One `append` on a `deque(maxlen=HISTORY_SIZE)` (monitor.py lines 32, 83):
below capacity the sample is appended; at capacity the single oldest element
is evicted from the left before the append. -/
def record (s : List ℚ) (x : ℚ) : List ℚ :=
  if s.length < HISTORY_SIZE then s ++ [x] else s.drop 1 ++ [x]

/-- The series obtained by feeding a sequence of samples, oldest first, into
a fresh deque. -/
def recordAll (xs : List ℚ) : List ℚ := xs.foldl record []

/-- `response_history = defaultdict(lambda: deque(maxlen=HISTORY_SIZE))`
(monitor.py line 32): the empty store maps every URL to an empty series. -/
def emptyHistory : String → List ℚ := fun _ => []

/-- `response_history[url].append(x)` (monitor.py line 83) acting on the
whole keyed store. -/
def recordStore (st : String → List ℚ) (url : String) (x : ℚ) :
    String → List ℚ :=
  fun u => if u = url then record (st u) x else st u

/-- Run a whole sequence of `(url, sample)` appends against a fresh store. -/
def runAppends (appends : List (String × ℚ)) : String → List ℚ :=
  appends.foldl (fun st p => recordStore st p.1 p.2) emptyHistory

/-- The subsequence of samples destined for endpoint `e`, in order. -/
def samplesFor (e : String) (appends : List (String × ℚ)) : List ℚ :=
  appends.filterMap (fun p => if p.1 = e then some p.2 else none)

section HistoryLemmas

lemma record_length_le (s : List ℚ) (x : ℚ) (h : s.length ≤ HISTORY_SIZE) :
    (record s x).length ≤ HISTORY_SIZE := by
  simp only [HISTORY_SIZE] at h ⊢
  simp only [record, HISTORY_SIZE]
  split
  · simp only [List.length_append, List.length_cons, List.length_nil]
    omega
  · simp only [List.length_append, List.length_drop, List.length_cons,
      List.length_nil]
    omega

/-- Key invariant of the deque: starting from any series within capacity,
folding in further samples yields exactly the suffix of all samples that fits
in the capacity. -/
lemma foldl_record_eq (xs : List ℚ) : ∀ s : List ℚ, s.length ≤ HISTORY_SIZE →
    List.foldl record s xs =
      (s ++ xs).drop (s.length + xs.length - HISTORY_SIZE) := by
  induction xs with
  | nil =>
    intro s hs
    simp only [HISTORY_SIZE] at hs
    simp only [List.foldl_nil, List.append_nil, List.length_nil, HISTORY_SIZE]
    rw [Nat.sub_eq_zero_of_le (by omega), List.drop_zero]
  | cons x xs ih =>
    intro s hs
    simp only [HISTORY_SIZE] at hs
    rw [List.foldl_cons]
    by_cases h1 : s.length < 50
    · have hrec : record s x = s ++ [x] := by
        simp only [record, HISTORY_SIZE]
        rw [if_pos h1]
      have hlen : (record s x).length ≤ HISTORY_SIZE := by
        rw [hrec]; simp only [List.length_append, List.length_cons,
          List.length_nil, HISTORY_SIZE]; omega
      rw [ih (record s x) hlen, hrec]
      have harr : (s ++ [x]) ++ xs = s ++ x :: xs := by simp
      rw [harr]
      congr 1
      simp only [List.length_append, List.length_cons, List.length_nil,
        HISTORY_SIZE]
      omega
    · have hfull : s.length = 50 := by omega
      obtain ⟨a, s', rfl⟩ : ∃ a s', s = a :: s' := by
        cases s with
        | nil => simp at hfull
        | cons a s' => exact ⟨a, s', rfl⟩
      have hrec : record (a :: s') x = s' ++ [x] := by
        simp only [record, HISTORY_SIZE]
        rw [if_neg h1, List.drop_one, List.tail_cons]
      have hlen : (record (a :: s') x).length ≤ HISTORY_SIZE := by
        rw [hrec]
        simp only [List.length_append, List.length_cons, List.length_nil,
          HISTORY_SIZE]
        simp only [List.length_cons] at hfull
        omega
      rw [ih (record (a :: s') x) hlen, hrec]
      simp only [List.length_cons] at hfull
      have hidx1 : (s' ++ [x]).length + xs.length - HISTORY_SIZE = xs.length := by
        simp only [List.length_append, List.length_cons, List.length_nil,
          HISTORY_SIZE]
        omega
      have hidx2 :
          (a :: s').length + (x :: xs).length - HISTORY_SIZE = xs.length + 1 := by
        simp only [List.length_cons, HISTORY_SIZE]
        omega
      rw [hidx1, hidx2]
      have harr : (s' ++ [x]) ++ xs = s' ++ x :: xs := by simp
      rw [harr, List.cons_append, List.drop_succ_cons]

/-- The keyed store dispatches each append to its endpoint: the series of
endpoint `e` is the fold of exactly the samples addressed to `e`. -/
lemma runAppends_eq_foldl (appends : List (String × ℚ)) :
    ∀ st : String → List ℚ, ∀ e : String,
      (appends.foldl (fun st p => recordStore st p.1 p.2) st) e =
        List.foldl record (st e) (samplesFor e appends) := by
  induction appends with
  | nil => intro st e; simp [samplesFor]
  | cons p rest ih =>
    intro st e
    rw [List.foldl_cons]
    rw [ih (recordStore st p.1 p.2) e]
    by_cases h : p.1 = e
    · have he : e = p.1 := h.symm
      have h1 : recordStore st p.1 p.2 e = record (st e) p.2 := by
        unfold recordStore; rw [if_pos he]
      have h2 : samplesFor e (p :: rest) = p.2 :: samplesFor e rest := by
        unfold samplesFor; rw [List.filterMap_cons]; simp [h]
      rw [h1, h2, List.foldl_cons]
    · have he : ¬ e = p.1 := fun hc => h hc.symm
      have h1 : recordStore st p.1 p.2 e = st e := by
        unfold recordStore; rw [if_neg he]
      have h2 : samplesFor e (p :: rest) = samplesFor e rest := by
        unfold samplesFor; rw [List.filterMap_cons]; simp [h]
      rw [h1, h2]

end HistoryLemmas

/-- C1: For every endpoint, the latency series kept in the History Store
never exceeds `HISTORY_SIZE` (= 50) samples, and after appending more than
`HISTORY_SIZE` samples the series equals exactly the most recent
`HISTORY_SIZE` samples in insertion order, oldest to newest (single-oldest
FIFO eviction on each append at capacity). -/
theorem C1_history_bounded_fifo (appends : List (String × ℚ)) (e : String) :
    ((runAppends appends) e).length ≤ HISTORY_SIZE ∧
      (HISTORY_SIZE < (samplesFor e appends).length →
        (runAppends appends) e =
          (samplesFor e appends).drop
            ((samplesFor e appends).length - HISTORY_SIZE)) := by
  have hrun : (runAppends appends) e =
      List.foldl record [] (samplesFor e appends) := by
    unfold runAppends
    rw [runAppends_eq_foldl appends emptyHistory e]
    rfl
  have hfold := foldl_record_eq (samplesFor e appends) [] (by simp)
  simp only [List.nil_append, List.length_nil, Nat.zero_add] at hfold
  constructor
  · rw [hrun, hfold]
    simp only [List.length_drop]
    omega
  · intro _
    rw [hrun, hfold]

/-- Witness for C1: 51 appends to endpoint `"a"` leave exactly the most
recent 50 samples. -/
theorem C1_witness :
    HISTORY_SIZE <
        (samplesFor "a" (List.replicate 51 (("a" : String), (0 : ℚ)))).length ∧
      (runAppends (List.replicate 51 (("a" : String), (0 : ℚ)))) "a" =
        (samplesFor "a" (List.replicate 51 (("a" : String), (0 : ℚ)))).drop
          ((samplesFor "a"
              (List.replicate 51 (("a" : String), (0 : ℚ)))).length -
            HISTORY_SIZE) :=
  ⟨by decide,
   (C1_history_bounded_fifo (List.replicate 51 (("a" : String), (0 : ℚ)))
     "a").2 (by decide)⟩

/-!
## Probe classification (`check_site`, monitor.py lines 65-111)

The `except` clauses are tried in source order (Timeout, ConnectionError,
SSLError, RequestException) and each one catches by `isinstance`.  The
`requests` exception hierarchy (requests/exceptions.py) has
`SSLError(ConnectionError)`, `ConnectionError(RequestException)` and
`Timeout(RequestException)`, which the `isX` predicates below reproduce.
-/

/-- The dynamic class of an exception raised by `requests.get`. -/
inductive ReqError where
  | timeout
  | connectionError
  | sslError
  | requestException
deriving Repr, DecidableEq

/-- `isinstance(e, requests.Timeout)`. -/
def isTimeout : ReqError → Bool
  | .timeout => true
  | _ => false

/-- `isinstance(e, requests.ConnectionError)`; `requests.SSLError` is a
subclass of `requests.ConnectionError`, so SSL errors satisfy this test. -/
def isConnectionError : ReqError → Bool
  | .connectionError => true
  | .sslError => true
  | _ => false

/-- `isinstance(e, requests.SSLError)`. -/
def isSSLError : ReqError → Bool
  | .sslError => true
  | _ => false

/-- The status label produced by the exception handlers of `check_site`
(monitor.py lines 94-101): the `except` clauses are tried in source order
and the first whose class matches the raised exception wins.  Every
`ReqError` is a `requests.RequestException`, so the final clause always
matches. -/
def classify (e : ReqError) : String :=
  if isTimeout e then "DOWN (Timeout)"
  else if isConnectionError e then "DOWN (Connection Error)"
  else if isSSLError e then "DOWN (SSL Error)"
  else "DOWN (Unknown Error)"

/-- What `requests.get(url, ...)` did: either the request completed with a
status code after `responseTimeMs` milliseconds (any status code counts as
completed), or it raised an exception. -/
inductive ProbeOutcome where
  | completed (statusCode : Nat) (responseTimeMs : ℚ)
  | raised (e : ReqError)

/-- The dictionary returned by `check_site` (monitor.py lines 85-92 and
104-111). -/
structure CheckResult where
  timestamp : String
  url : String
  status : String
  response_time : String
  response_time_raw : Option ℚ
  is_up : Bool
deriving Repr, DecidableEq

/-- Python's `round`-to-nearest with ties to even, as used by the `:.0f`
format specification (on our rational model of the float). -/
def roundHalfEven (q : ℚ) : ℤ :=
  if q - ⌊q⌋ < 1 / 2 then ⌊q⌋
  else if q - ⌊q⌋ > 1 / 2 then ⌊q⌋ + 1
  else if ⌊q⌋ % 2 = 0 then ⌊q⌋ else ⌊q⌋ + 1

/-- `f"{response_time:.0f}ms"` (monitor.py line 89). -/
def fmtMs (q : ℚ) : String := toString (roundHalfEven q) ++ "ms"

/-- `check_site(url)` (monitor.py lines 65-111), with the ambient effects
made explicit: the wall-clock `timestamp` string and the network outcome `o`
are inputs, and the endpoint's history series is threaded through (it is
read and written only via `response_history[url].append` on line 83).
Returns the result dictionary and the new history series.  On the success
path the measured latency is appended to the history whatever the status
code; on every exception path the history is untouched, the response time is
`'N/A'` and no raw latency is carried. -/
def check_site (timestamp url : String) (o : ProbeOutcome) (hist : List ℚ) :
    CheckResult × List ℚ :=
  match o with
  | .completed code rt =>
      ({ timestamp := timestamp
         url := url
         status := "UP (" ++ toString code ++ ")"
         response_time := fmtMs rt
         response_time_raw := some rt
         is_up := decide (code < 400) }, record hist rt)
  | .raised e =>
      ({ timestamp := timestamp
         url := url
         status := classify e
         response_time := "N/A"
         response_time_raw := none
         is_up := false }, hist)

/-- Probing one endpoint repeatedly with the given outcomes, threading the
history series through the successive `check_site` calls. -/
def probeHistory (timestamp url : String) (os : List ProbeOutcome)
    (hist : List ℚ) : List ℚ :=
  os.foldl (fun h o => (check_site timestamp url o h).2) hist

/-- C2: a latency sample is recorded for a probe if and only if the HTTP
request completed (any status code); on every failure path `check_site`
records nothing, so probing an always-failing endpoint N times leaves the
series empty, and the failure result carries response time `'N/A'` with no
raw latency. -/
theorem C2_sample_iff_completed :
    (∀ ts url code rt hist,
        (check_site ts url (.completed code rt) hist).2 = record hist rt ∧
        (check_site ts url (.completed code rt) hist).1.response_time_raw
          = some rt) ∧
    (∀ ts url e hist,
        (check_site ts url (.raised e) hist).2 = hist ∧
        (check_site ts url (.raised e) hist).1.response_time = "N/A" ∧
        (check_site ts url (.raised e) hist).1.response_time_raw = none) ∧
    (∀ ts url (es : List ReqError),
        probeHistory ts url (es.map .raised) [] = []) := by
  refine ⟨fun ts url code rt hist => ⟨rfl, rfl⟩,
    fun ts url e hist => ⟨rfl, rfl, rfl⟩, fun ts url es => ?_⟩
  induction es with
  | nil => rfl
  | cons e es ih =>
    simpa [probeHistory, check_site] using ih

/-- C3: for every completed probe, `is_up` is true iff the status code is
< 400 (399 gives `true`, 400 gives `false`), and in both cases the measured
latency is appended to the endpoint's history series. -/
theorem C3_up_down_boundary :
    (∀ ts url (code : Nat) rt hist,
        (check_site ts url (.completed code rt) hist).1.is_up
          = decide (code < 400) ∧
        (check_site ts url (.completed code rt) hist).2 = record hist rt) ∧
    (∀ ts url rt hist,
        (check_site ts url (.completed 399 rt) hist).1.is_up = true ∧
        (check_site ts url (.completed 400 rt) hist).1.is_up = false) :=
  ⟨fun ts url code rt hist => ⟨rfl, rfl⟩,
   fun ts url rt hist => ⟨rfl, rfl⟩⟩

/-- C4 (counterexample to the claim / code bug): an SSL failure is labelled
`'DOWN (Connection Error)'`, not `'DOWN (SSL Error)'`, because the
`except requests.ConnectionError` clause precedes `except requests.SSLError`
and `SSLError` is a subclass of `ConnectionError`, making the SSL clause
unreachable.  The other three failure labels are as the claim states. -/
theorem C4_ssl_label_unreachable :
    (check_site "12:00:00" "https://example.com" (.raised .sslError) []).1.status
        = "DOWN (Connection Error)" ∧
    (check_site "12:00:00" "https://example.com" (.raised .sslError) []).1.status
        ≠ "DOWN (SSL Error)" ∧
    classify .timeout = "DOWN (Timeout)" ∧
    classify .connectionError = "DOWN (Connection Error)" ∧
    classify .requestException = "DOWN (Unknown Error)" := by
  refine ⟨rfl, ?_, rfl, rfl, rfl⟩
  decide

/-!
## Sparkline (`create_sparkline`, monitor.py lines 34-63)
-/

/-- `chars = "▁▂▃▄▅▆▇█"` (monitor.py line 48), low to high. -/
def sparkChars : List Char := ['▁', '▂', '▃', '▄', '▅', '▆', '▇', '█']

/-- `min(values)` for a Python list (monitor.py line 51); the `[]` case is
never reached because of the emptiness guard on line 44. -/
def listMin : List ℚ → ℚ
  | [] => 0
  | x :: xs => xs.foldl min x

/-- `max(values)` (monitor.py line 52). -/
def listMax : List ℚ → ℚ
  | [] => 0
  | x :: xs => xs.foldl max x

/-- Python `int(...)` truncates toward zero. -/
def pyInt (q : ℚ) : ℤ := if q < 0 then ⌈q⌉ else ⌊q⌋

/-- `scaled = int(((val - min_val) / (max_val - min_val)) * 7)`
(monitor.py line 60). -/
def scaledOf (minv maxv v : ℚ) : ℤ := pyInt ((v - minv) / (maxv - minv) * 7)

/-- `min(7, max(0, scaled))` (monitor.py line 61), as the level index. -/
def clampLevel (z : ℤ) : ℕ := (min 7 (max 0 z)).toNat

/-- The list of levels, one per value, produced by the body of
`create_sparkline` (monitor.py lines 51-61): a flat series (`max == min`)
maps every value to the middle character index 4; otherwise each value is
min-max normalized and clamped into `0..7`. -/
def sparkLevels (values : List ℚ) : List ℕ :=
  if listMax values = listMin values then List.replicate values.length 4
  else values.map (fun v => clampLevel (scaledOf (listMin values) (listMax values) v))

/-- `create_sparkline(values)` (monitor.py lines 34-63): `""` on an empty
list, otherwise one character from `sparkChars` per value.  The index is
always in bounds (see `C9_levels_in_bounds`), so the total `getD` access is
exact for the partial Python indexing. -/
def create_sparkline (values : List ℚ) : String :=
  if values.isEmpty then ""
  else String.mk ((sparkLevels values).map (fun i => sparkChars.getD i ' '))

/-- The character `create_sparkline` assigns to value `v` of a series. -/
def sparkCharOf (values : List ℚ) (v : ℚ) : Char :=
  if listMax values = listMin values then sparkChars.getD 4 ' '
  else sparkChars.getD
    (clampLevel (scaledOf (listMin values) (listMax values) v)) ' '

/-- `sparkline = create_sparkline(history) if history else "No data"`
(monitor.py line 125, in `create_sparkline_panel`). -/
def panelSparkline (history : List ℚ) : String :=
  if history.isEmpty then "No data" else create_sparkline history

/-- C7: for every non-empty latency series, the sparkline maps each value to
one of 8 levels by linear min-max normalization over that series itself:
when max equals min every value maps to the midpoint level (index 4 of the
8 levels) and the output has one character per sample; otherwise the minimum
maps to level 0 and the maximum to level 7, and `[1, 100]` yields levels
`[0, 7]`. -/
theorem C7_sparkline_normalization :
    (∀ values : List ℚ, values ≠ [] → listMax values = listMin values →
        sparkLevels values = List.replicate values.length 4 ∧
        (create_sparkline values).length = values.length) ∧
    (∀ values : List ℚ, values ≠ [] → listMin values < listMax values →
        clampLevel (scaledOf (listMin values) (listMax values)
          (listMin values)) = 0 ∧
        clampLevel (scaledOf (listMin values) (listMax values)
          (listMax values)) = 7) ∧
    sparkLevels [(1 : ℚ), 100] = [0, 7] := by
  refine ⟨fun values hne hflat => ⟨by simp [sparkLevels, hflat], ?_⟩,
    fun values hne hlt => ⟨?_, ?_⟩, by
      norm_num [sparkLevels, listMin, listMax, scaledOf, pyInt, clampLevel]
      decide⟩
  · obtain ⟨x, xs, rfl⟩ := List.exists_cons_of_ne_nil hne
    simp [create_sparkline, String.length, sparkLevels, hflat]
  · have h0 : scaledOf (listMin values) (listMax values) (listMin values)
        = 0 := by
      simp [scaledOf, pyInt]
    rw [h0]
    rfl
  · have hne' : listMax values - listMin values ≠ 0 :=
      sub_ne_zero_of_ne (ne_of_gt hlt)
    have h7 : scaledOf (listMin values) (listMax values) (listMax values)
        = 7 := by
      unfold scaledOf
      rw [div_self hne', one_mul]
      simp [pyInt]
    rw [h7]
    rfl

/-- Witness for C7: the flat series `[10, 10, 10]` and the two-point series
`[1, 100]`. -/
theorem C7_witness :
    (sparkLevels [(10 : ℚ), 10, 10] = List.replicate 3 4 ∧
      (create_sparkline [(10 : ℚ), 10, 10]).length = 3) ∧
    (clampLevel (scaledOf (listMin [(1 : ℚ), 100]) (listMax [(1 : ℚ), 100])
        (listMin [(1 : ℚ), 100])) = 0 ∧
      clampLevel (scaledOf (listMin [(1 : ℚ), 100]) (listMax [(1 : ℚ), 100])
        (listMax [(1 : ℚ), 100])) = 7) :=
  ⟨C7_sparkline_normalization.1 [(10 : ℚ), 10, 10] (by decide) (by decide),
   C7_sparkline_normalization.2.1 [(1 : ℚ), 100] (by decide) (by decide)⟩

/-- C8: the sparkline derivation applied to an empty latency series yields
the explicit `"No data"` marker (monitor.py line 125), which is not one of
the 8 level characters; the raw `create_sparkline` returns `""` on line 45,
also not a level character. -/
theorem C8_empty_series_no_data :
    panelSparkline [] = "No data" ∧
    create_sparkline [] = "" ∧
    "No data" ∉ sparkChars.map (fun c => String.mk [c]) ∧
    "" ∉ sparkChars.map (fun c => String.mk [c]) := by
  refine ⟨rfl, rfl, by decide, by decide⟩

/-- C9: for every non-empty list with max > min, the normalized level
computed in `create_sparkline` for each value is clamped into `0..7`, so the
index into the 8-character level string is always in bounds and the function
is total on non-empty inputs. -/
theorem C9_levels_in_bounds (values : List ℚ) (hne : values ≠ [])
    (hlt : listMin values < listMax values) :
    (∀ l ∈ sparkLevels values, l < sparkChars.length) ∧
      (sparkLevels values).length = values.length := by
  have hne' : ¬ listMax values = listMin values := ne_of_gt hlt
  constructor
  · intro l hl
    simp only [sparkLevels, if_neg hne'] at hl
    obtain ⟨v, _, rfl⟩ := List.mem_map.mp hl
    have h1 : (min 7 (max 0 (scaledOf (listMin values) (listMax values) v))
        : ℤ) ≤ 7 := min_le_left _ _
    have h2 : clampLevel (scaledOf (listMin values) (listMax values) v)
        ≤ (7 : ℤ).toNat := Int.toNat_le_toNat h1
    have h3 : sparkChars.length = 8 := rfl
    omega
  · simp only [sparkLevels, if_neg hne', List.length_map]

/-- Witness for C9 at the series `[1, 100]`. -/
theorem C9_witness :
    (∀ l ∈ sparkLevels [(1 : ℚ), 100], l < sparkChars.length) ∧
      (sparkLevels [(1 : ℚ), 100]).length = ([(1 : ℚ), 100]).length :=
  C9_levels_in_bounds [(1 : ℚ), 100] (by decide) (by decide)

/-- C10: for every non-empty list, the sparkline string has exactly one
character per input value, in the same order as the input. -/
theorem C10_one_char_per_sample (values : List ℚ) (hne : values ≠ []) :
    (create_sparkline values).data = values.map (sparkCharOf values) ∧
      (create_sparkline values).length = values.length := by
  have hemp : values.isEmpty = false := by
    obtain ⟨x, xs, rfl⟩ := List.exists_cons_of_ne_nil hne
    rfl
  have hdata : (create_sparkline values).data =
      values.map (sparkCharOf values) := by
    simp only [create_sparkline, hemp, Bool.false_eq_true, if_false]
    show (sparkLevels values).map (fun i => sparkChars.getD i ' ')
        = values.map (sparkCharOf values)
    by_cases hflat : listMax values = listMin values
    · simp only [sparkLevels, if_pos hflat, List.map_replicate]
      have : values.map (sparkCharOf values)
          = values.map (fun _ => sparkChars.getD 4 ' ') := by
        apply List.map_congr_left
        intro v _
        simp [sparkCharOf, hflat]
      rw [this, List.map_const']
    · simp only [sparkLevels, if_neg hflat, List.map_map]
      apply List.map_congr_left
      intro v _
      simp [sparkCharOf, hflat, Function.comp]
  refine ⟨hdata, ?_⟩
  show (create_sparkline values).data.length = values.length
  rw [hdata, List.length_map]

/-- Witness for C10 at the series `[1, 100]`. -/
theorem C10_witness :
    (create_sparkline [(1 : ℚ), 100]).data
        = ([(1 : ℚ), 100]).map (sparkCharOf [(1 : ℚ), 100]) ∧
      (create_sparkline [(1 : ℚ), 100]).length = ([(1 : ℚ), 100]).length :=
  C10_one_char_per_sample [(1 : ℚ), 100] (by decide)

/-!
## Round timing (`monitor_sites`, monitor.py lines 185-212)

Temporal model of the `while True` loop body: the list comprehension
`results = [check_site(site) for site in sites]` (line 201) evaluates the
`check_site` calls one after another — sequentially, despite the comment —
so the probe phase of a round lasts the sum of the individual probe
durations; afterwards `time.sleep(interval)` (line 212) suspends for the
full interval unconditionally, however long the probe phase took.
-/

/-- Elapsed time of the probe phase of one round whose sequential probes
take the given durations (seconds). -/
def roundDuration (durations : List ℚ) : ℚ := durations.sum

/-- Start time of the next round as a function of the start time of the
current round and its probe durations: probe phase, then a full
`time.sleep(interval)`. -/
def roundStep (interval t : ℚ) (durations : List ℚ) : ℚ :=
  t + roundDuration durations + interval

/-- Start time of the round reached after executing the given rounds (each
listed by its probe durations), beginning at time `t0`. -/
def roundStartAfter (t0 interval : ℚ) (rounds : List (List ℚ)) : ℚ :=
  rounds.foldl (roundStep interval) t0

/-- C5 counterexample: with `interval = 10` and two probes of half a second
each, the next round starts at `t = 11`, not `t ≈ 10` — the gap is exactly
interval plus probe time; and when a round's probes take 12 seconds
(longer than the interval) the next round starts at `t = 22`, not
immediately at `t = 12`. -/
theorem C5_counterexample :
    roundStep 10 0 [1/2, 1/2] = 11 ∧
    roundStep 10 0 [1/2, 1/2] ≠ 10 ∧
    roundStep 10 0 [12] = 22 ∧
    roundStep 10 0 [12] ≠ 12 := by
  norm_num [roundStep, roundDuration]

/-- C5 as amended: consecutive round starts are separated by the previous
round's total sequential probe time plus the full interval — the sleep is
measured from the round's end, and an overrunning round still incurs the
whole additional interval before the next round starts. -/
theorem C5_interval_from_round_end (t0 i : ℚ) (rounds : List (List ℚ))
    (ds : List ℚ) :
    roundStartAfter t0 i (rounds ++ [ds]) =
      roundStartAfter t0 i rounds + roundDuration ds + i := by
  simp [roundStartAfter, List.foldl_append, roundStep]

/-- C6 counterexample: three probes of 5 seconds each (the per-probe
timeout) make the round last 15 seconds — the sum, three times the slowest
single probe — so the round duration is not bounded by the slowest probe
independent of the endpoint count. -/
theorem C6_counterexample :
    roundDuration [TIMEOUT, TIMEOUT, TIMEOUT] = 15 ∧
    listMax [TIMEOUT, TIMEOUT, TIMEOUT] = 5 ∧
    ¬ roundDuration [TIMEOUT, TIMEOUT, TIMEOUT]
        ≤ listMax [TIMEOUT, TIMEOUT, TIMEOUT] := by
  refine ⟨?_, ?_, ?_⟩ <;> norm_num [roundDuration, listMax, TIMEOUT]

/-- C6 as amended: within a round the probes run sequentially, one after
another, so the round duration is the sum of all probe durations — bounded
by endpoint count times the per-probe bound, scaling with the endpoint
count rather than with the slowest single probe. -/
theorem C6_sequential_round_duration (ds : List ℚ) :
    roundDuration ds = ds.sum ∧
      ((∀ d ∈ ds, d ≤ TIMEOUT) → roundDuration ds ≤ ds.length * TIMEOUT) := by
  refine ⟨rfl, fun h => ?_⟩
  have := List.sum_le_card_nsmul ds TIMEOUT h
  rwa [nsmul_eq_mul] at this

/-- Witness for C6 as amended: three timeout-length probes give a round of
exactly `3 * TIMEOUT` seconds. -/
theorem C6_witness :
    roundDuration [TIMEOUT, TIMEOUT, TIMEOUT]
        ≤ ([TIMEOUT, TIMEOUT, TIMEOUT]).length * TIMEOUT :=
  (C6_sequential_round_duration [TIMEOUT, TIMEOUT, TIMEOUT]).2 (by
    intro d hd
    simp only [List.mem_cons, List.not_mem_nil, or_false] at hd
    rcases hd with rfl | rfl | rfl <;> exact le_refl TIMEOUT)
